import Mathlib

/-!
Shallow embedding of the command-result parser and session manager of
src/lib/ssh.py (class SSH and class _Result), together with theorems about
the incremental parsing algorithm, the return-code extraction, the timeout
path of SSH.exec, and the environment-profile construction.

Python strings are modelled as Lean Strings; Python str.splitlines,
str.strip, the substring test performed by the compiled regex
.*?<escaped PS1>.* under re.match, str.endswith and the leading-digit
regex are modelled by executable functions below.  Python dicts are
modelled as insertion-ordered association lists.
-/

namespace Xbot

/-- Characters removed by Python str.strip() (ASCII whitespace). -/
def isPySpace (c : Char) : Bool :=
  c == ' ' || c == '\t' || c == '\n' || c == '\r' || c == '\x0b' || c == '\x0c'

/-- Python str.strip(): remove leading and trailing whitespace. -/
def pystrip (s : String) : String :=
  String.mk (((s.data.dropWhile isPySpace).reverse.dropWhile isPySpace).reverse)

/-- Worker for splitlines: cur holds the current line, reversed. -/
def splitlinesAux : List Char → List Char → List String
  | [], [] => []
  | [], cur => [String.mk cur.reverse]
  | '\r' :: '\n' :: rest, cur => String.mk cur.reverse :: splitlinesAux rest []
  | '\r' :: rest, cur => String.mk cur.reverse :: splitlinesAux rest []
  | '\n' :: rest, cur => String.mk cur.reverse :: splitlinesAux rest []
  | c :: rest, cur => splitlinesAux rest (c :: cur)

/-- Python str.splitlines() restricted to the terminators produced by a
terminal stream: \n, \r and the pair \r\n (one boundary).  A trailing
terminator does not produce an extra empty line. -/
def splitlines (s : String) : List String := splitlinesAux s.data []

/-- Boolean list-prefix test. -/
def listIsPrefix : List Char → List Char → Bool
  | [], _ => true
  | _ :: _, [] => false
  | a :: as, b :: bs => a == b && listIsPrefix as bs

/-- Boolean contiguous-sublist test: needle occurs inside the haystack. -/
def listInfixB (needle : List Char) : List Char → Bool
  | [] => listIsPrefix needle []
  | b :: bs => listIsPrefix needle (b :: bs) || listInfixB needle bs

/-- Python substring test (needle in hay). -/
def strContains (hay needle : String) : Bool := listInfixB needle.data hay.data

/-- Python str.endswith. -/
def strEndsWith (s suffix : String) : Bool :=
  listIsPrefix suffix.data.reverse s.data.reverse

/-- SSH.PS1, the fixed prompt marker. -/
def PS1 : String := "[sh@xbot]$ "

/-- The compiled regex .*?<escaped ps1>.* applied with re.match succeeds
exactly when ps1 occurs as a substring of the line (lines contain no
newline characters). -/
def ps1lineMatch (ps1 line : String) : Bool := strContains line ps1

/-- The second start condition of _Result._locate_purers: the line matches
the prompt regex, ends with the command, and the stripped command is
non-empty. -/
def bcond (ps1 cmd line : String) : Bool :=
  ps1lineMatch ps1 line && strEndsWith line cmd && (pystrip cmd != "")

/-- The multi-word test of _Result._locate_purers:
a space character occurs in the stripped command. -/
def spaceInCmd (cmd : String) : Bool := strContains (pystrip cmd) " "

/-- The loop body of _Result._locate_purers over the list of lines, with
the running absolute line index and the current start value.  Returns the
pair (start, end); end is an Int because the source computes i - 1, which
is -1 when the loop breaks on the very first line. -/
def locateGo (ps1 cmd : String) : List String → Nat → Option Nat → Option Nat × Option Int
  | [], _, start => (start, none)
  | line :: rest, i, start =>
    if start.isNone && line == cmd then
      locateGo ps1 cmd rest (i + 1) (some (i + 1))
    else if bcond ps1 cmd line then
      locateGo ps1 cmd rest (i + 1) (some (i + 1))
    else if ps1lineMatch ps1 line then
      if spaceInCmd cmd && start.isNone then locateGo ps1 cmd rest (i + 1) start
      else (start, some ((i : Int) - 1))
    else locateGo ps1 cmd rest (i + 1) start

/-- _Result._locate_purers: locate the start and end line numbers of the
pure result inside the raw text. -/
def locate_purers (ps1 cmd rs : String) : Option Nat × Option Int :=
  locateGo ps1 cmd (splitlines rs) 0 none

/-- The regex re.match(r'\d+', s): s starts with at least one digit. -/
def digitStart (s : String) : Bool :=
  match s.data with
  | [] => false
  | c :: _ => c.isDigit

/-- _Result._getrc: extract the return code from the raw text, given the
located end line number. -/
def getrc (ps1 rs : String) (e : Option Int) : String :=
  match e with
  | none => ""
  | some v =>
    let lines := (splitlines rs).drop (v + 1).toNat
    if lines.length < 3 then ""
    else if !(ps1lineMatch ps1 (lines.getD (lines.length - 1) "")) then ""
    else
      let rc := lines.getD (lines.length - 2) ""
      if !(digitStart rc) then "" else rc

/-- The constructor parameters of _Result: PS1, the command and the
expectation. -/
structure RParams where
  ps1 : String
  cmd : String
  expect : String
deriving DecidableEq

/-- The mutable state of a _Result object: raw text rs, return code rc,
purified text purers, and the located start and end line numbers. -/
structure RState where
  rs : String
  rc : String
  purers : String
  start : Option Nat
  end_ : Option Int
deriving DecidableEq

/-- A freshly constructed _Result. -/
def initState : RState := ⟨"", "", "", none, none⟩

/-- The slice bound computed by appendrs:
end = (end + 1) if end else end.  A located end of 0 is falsy in Python
and is therefore kept as is, and -1 is truthy and becomes 0. -/
def sliceStop (e : Option Int) : Option Int :=
  match e with
  | none => none
  | some v => if v == 0 then some v else some (v + 1)

/-- Python list slicing lines[start:stop] for the values arising in
appendrs: a missing bound keeps that side open, and the stop values that
occur are never negative. -/
def sliceLines (lines : List String) (start : Option Nat) (stop : Option Int) : List String :=
  (match stop with
   | none => lines
   | some v => lines.take v.toNat).drop (start.getD 0)

/-- _Result.appendrs: append a chunk to the raw text, relocate the
boundaries, recompute the purified text, and (for expect = "0") recompute
the return code. -/
def RState.appendrs (p : RParams) (st : RState) (s : String) : RState :=
  let rs := st.rs ++ s
  let se := locate_purers p.ps1 p.cmd rs
  { rs := rs
    rc := if p.expect == "0" then getrc p.ps1 rs se.2 else st.rc
    purers := pystrip (String.intercalate "\n"
      (sliceLines (splitlines rs) se.1 (sliceStop se.2)))
    start := se.1
    end_ := se.2 }

/-- _Result.finished: the completion test, by expectation. -/
def RState.finished (p : RParams) (st : RState) : Bool :=
  if p.expect == "0" then st.rc != ""
  else if p.expect == "" then !(st.end_ == none)
  else strContains st.purers p.expect

/-- Python str({'Command': cmd, 'Expect': expect}) for plain string values
without characters needing escapes, as interpolated into the error
messages of SSH.exec. -/
def pyDictRepr (cmd expect : String) : String :=
  "\x7b\x27Command\x27: \x27" ++ cmd ++ "\x27, \x27Expect\x27: \x27"
    ++ expect ++ "\x27\x7d"

/-- The polling loop of SSH.exec, time abstracted: each list element is one
loop iteration in which either a chunk is ready (some chunk) or not
(none); exhausting the list is the timeout.  On finished with expect "0"
and a return code other than "0" the loop raises ShellError with the
dict repr and the purified text; on finished otherwise it returns the
purified text; on timeout it raises ShellError with a Timeout message and
the purified text. -/
def execLoop (p : RParams) (st : RState) : List (Option String) → Except String String
  | [] => .error ("Timeout: " ++ pyDictRepr p.cmd p.expect ++ "\n" ++ st.purers)
  | none :: rest => execLoop p st rest
  | some chunk :: rest =>
    let st' := st.appendrs p chunk
    if st'.finished p then
      if p.expect == "0" && st'.rc != "0" then
        .error (pyDictRepr p.cmd p.expect ++ "\n" ++ st'.purers)
      else .ok st'.purers
    else execLoop p st' rest

/-- Python dict update d[k] = v on an insertion-ordered association list:
an existing key keeps its position and gets the new value, a new key is
appended. -/
def dictUpdate (d : List (String × String)) (k v : String) : List (String × String) :=
  if (d.map Prod.fst).contains k then
    d.map (fun p => if p.1 == k then (p.1, v) else p)
  else d ++ [(k, v)]

/-- The update performed by SSH.__init__ on the shenvs dict:
shenvs.update(PS1=SSH.PS1, LANG='en_US.UTF-8', LANGUAGE='en_US.UTF-8'). -/
def initShenvs (shenvs : List (String × String)) : List (String × String) :=
  dictUpdate (dictUpdate (dictUpdate shenvs "PS1" PS1)
    "LANG" "en_US.UTF-8") "LANGUAGE" "en_US.UTF-8"

/-- One line written by SSH._mkprofile for the pair (k, v). -/
def exportLine (kv : String × String) : String :=
  "export " ++ kv.1 ++ "=\x22" ++ kv.2 ++ "\x22\n"

/-- The profile content written by SSH._mkprofile: one export line per
variable, in dict order. -/
def mkprofile (d : List (String × String)) : String :=
  String.join (d.map exportLine)

/-- A heap of Python dict objects, addressed by Nat references.  Used to
model the aliasing behaviour of the mutable default argument of
SSH.__init__. -/
structure PyStore where
  heap : Nat → List (String × String)

/-- The address of the single dict object created when the def statement
of SSH.__init__ is evaluated, shared by every call that omits shenvs. -/
def defaultShenvsAddr : Nat := 0

/-- The store right after module load: the default-argument dict exists
and is empty. -/
def moduleInitStore : PyStore := ⟨fun _ => []⟩

/-- SSH.__init__ restricted to its shenvs effect: resolve the argument (or
the shared default dict), then mutate that dict in place with the three
forced variables.  Returns the reference stored into self._shenvs. -/
def ssh_init (arg : Option Nat) (s : PyStore) : Nat × PyStore :=
  let r := arg.getD defaultShenvsAddr
  let d := initShenvs (s.heap r)
  (r, ⟨fun a => if a == r then d else s.heap a⟩)

/-- The total raw text of a list of chunks. -/
def concatChunks (chunks : List String) : String :=
  chunks.foldr (· ++ ·) ""

/-- Index of the last line satisfying the prompt-prefixed-echo condition
bcond, if any.  Used to characterize the start location. -/
def lastBIdx (ps1 cmd : String) : List String → Option Nat
  | [] => none
  | l :: ls =>
    match lastBIdx ps1 cmd ls with
    | some j => some (j + 1)
    | none => if bcond ps1 cmd l then some 0 else none

/-- Index of the first line equal to the command text, if any.  Used to
characterize the start location. -/
def firstAIdx (cmd : String) : List String → Option Nat
  | [] => none
  | l :: ls => if l == cmd then some 0 else (firstAIdx cmd ls).map (· + 1)

/-- Whether one of the first j lines would locate a start: it equals the
command text, or satisfies the prompt-echo condition.  While the scan of
_locate_purers is still running, the located start is non-None exactly
when such a line has been scanned. -/
def startSetterBefore (ps1 cmd : String) (lines : List String) (j : Nat) : Bool :=
  (lines.take j).any (fun l => l == cmd || bcond ps1 cmd l)

/-- The end-boundary trigger of _locate_purers at absolute line index j:
the line matches the prompt marker pattern, is not a prompt-prefixed
command echo, is not an exact command echo still awaiting a start, and
for a command whose stripped text contains a space a start must already
have been located.  The end line is the line immediately before the
first index at which this trigger holds. -/
def endTriggerAt (ps1 cmd : String) (lines : List String) (j : Nat) : Bool :=
  match lines.get? j with
  | none => false
  | some l =>
    ps1lineMatch ps1 l && !(bcond ps1 cmd l) &&
      !(l == cmd && !(startSetterBefore ps1 cmd lines j)) &&
      (!(spaceInCmd cmd) || startSetterBefore ps1 cmd lines j)

/-! ## Helper lemmas -/

theorem listIsPrefix_iff (a b : List Char) : listIsPrefix a b = true ↔ a <+: b := by
  induction a generalizing b with
  | nil => simp [listIsPrefix, List.nil_prefix]
  | cons x xs ih =>
    cases b with
    | nil => simp [listIsPrefix]
    | cons y ys =>
      simp [listIsPrefix, List.cons_prefix_cons, Bool.and_eq_true, ih,
        beq_iff_eq]

theorem listInfixB_iff (n h : List Char) : listInfixB n h = true ↔ n <:+: h := by
  induction h with
  | nil => simp [listInfixB, listIsPrefix_iff, List.infix_nil, List.prefix_nil]
  | cons y ys ih =>
    simp [listInfixB, Bool.or_eq_true, listIsPrefix_iff, ih, List.infix_cons_iff]

theorem strContains_iff (hay needle : String) :
    strContains hay needle = true ↔ needle.data <:+: hay.data :=
  listInfixB_iff needle.data hay.data

theorem bool_eq_decide (b : Bool) (P : Prop) [Decidable P] (h : b = true ↔ P) :
    b = decide P := by
  cases hb : b with
  | false =>
    have hnp : ¬P := fun hp => absurd (hb ▸ h.mpr hp) (by decide)
    simp [hnp]
  | true =>
    have hp : P := h.mp hb
    simp [hp]

/-! ## C1: characterization of finished() -/

/-- C1: for every parser state reached by a sequence of appendrs calls,
finished() is true exactly when: for expect "0" the extracted return code
is a non-empty string; for expect "" an end boundary has been located; for
any other expect, the expectation occurs as a contiguous substring of the
current purified text. -/
theorem C1_finished_characterization (p : RParams) (chunks : List String) :
    (chunks.foldl (RState.appendrs p) initState).finished p =
      (if p.expect = "0" then
        decide ((chunks.foldl (RState.appendrs p) initState).rc ≠ "")
       else if p.expect = "" then
        (chunks.foldl (RState.appendrs p) initState).end_.isSome
       else
        decide (p.expect.data <:+:
          (chunks.foldl (RState.appendrs p) initState).purers.data)) := by
  set st := chunks.foldl (RState.appendrs p) initState with hst
  unfold RState.finished
  by_cases h0 : p.expect = "0"
  · have hrc : (st.rc == "") = decide (st.rc = "") := bool_eq_decide _ _ beq_iff_eq
    simp [h0, bne, decide_not, hrc]
  · by_cases he : p.expect = ""
    · have : ¬(p.expect == "0") = true := by simp [beq_iff_eq, h0]
      simp only [this, if_neg, he, if_pos, beq_iff_eq]
      simp [h0, Option.isSome]
      cases st.end_ <;> simp
    · have h0b : ¬(p.expect == "0") = true := by simp [beq_iff_eq, h0]
      have heb : ¬(p.expect == "") = true := by simp [beq_iff_eq, he]
      simp only [if_neg h0b, if_neg heb, if_neg h0, if_neg he]
      exact bool_eq_decide _ _ (strContains_iff _ _)

/-! ## C2: chunking independence of the parser -/

theorem appendrs_append (p : RParams) (st : RState) (a b : String) :
    (st.appendrs p a).appendrs p b = st.appendrs p (a ++ b) := by
  by_cases h : (p.expect == "0") = true <;>
    simp [RState.appendrs, String.append_assoc, h]

theorem foldl_appendrs (p : RParams) (chunks : List String) :
    ∀ (st : RState) (a : String),
      chunks.foldl (RState.appendrs p) (st.appendrs p a) =
        st.appendrs p (a ++ concatChunks chunks) := by
  induction chunks with
  | nil => intro st a; simp [concatChunks, String.append_empty]
  | cons c cs ih =>
    intro st a
    have : concatChunks (c :: cs) = c ++ concatChunks cs := rfl
    rw [this, List.foldl_cons, appendrs_append, ih, String.append_assoc]

/-- C2: parsing is chunking independent.  Feeding the chunks one by one to
a fresh parser produces exactly the same state (raw text, start, end,
purified text, return code, hence the same finished() value) as feeding
their concatenation in a single call. -/
theorem C2_chunking_independence (p : RParams) (chunks : List String) :
    chunks.foldl (RState.appendrs p) initState =
      initState.appendrs p (concatChunks chunks) := by
  cases chunks with
  | nil =>
    show initState = initState.appendrs p ""
    by_cases h : (p.expect == "0") = true <;>
      simp [RState.appendrs, initState, h, locate_purers, splitlines,
        splitlinesAux, locateGo, sliceLines, sliceStop, getrc, pystrip,
        String.intercalate]
  | cons c cs =>
    rw [List.foldl_cons]
    have h1 : initState.appendrs p c = initState.appendrs p ("" ++ c) := by
      rw [String.empty_append]
    rw [h1, foldl_appendrs, String.empty_append]
    rfl

/-! ## C9: in-place mutation of the caller dict and the shared mutable
default argument -/

/-- C9: SSH.__init__ mutates the dict passed as shenvs in place, forcing
PS1, LANG and LANGUAGE; and because the parameter default is one dict
object created once, two constructions without an argument resolve to the
same dict reference, so the second construction observes the mutations of
the first instead of a fresh empty mapping. -/
theorem C9_shared_mutable_default :
    (∀ (r : Nat) (s : PyStore),
      ((ssh_init (some r) s).2).heap r = initShenvs (s.heap r)) ∧
    (ssh_init none moduleInitStore).1 = defaultShenvsAddr ∧
    ((ssh_init none moduleInitStore).2).heap defaultShenvsAddr =
      [("PS1", PS1), ("LANG", "en_US.UTF-8"), ("LANGUAGE", "en_US.UTF-8")] ∧
    (ssh_init none ((ssh_init none moduleInitStore).2)).1 = defaultShenvsAddr ∧
    ((ssh_init none ((ssh_init none moduleInitStore).2)).2).heap defaultShenvsAddr =
      initShenvs [("PS1", PS1), ("LANG", "en_US.UTF-8"), ("LANGUAGE", "en_US.UTF-8")] ∧
    ((ssh_init none ((ssh_init none moduleInitStore).2)).2).heap defaultShenvsAddr ≠ [] := by
  refine ⟨fun r s => ?_, rfl, rfl, rfl, rfl, by decide⟩
  simp [ssh_init]

/-! ## Counterexamples to C3, C4, C5, C10 -/

/-- C3 counterexample: with command pwd and raw text whose first line is a
prompt-prefixed echo of the command, a second echo line later in the text
moves the start from 1 to 3, so the start is not pinned to the first
qualifying line. -/
theorem C3_counterexample :
    bcond PS1 "pwd" "[sh@xbot]$ pwd" = true ∧
    locate_purers PS1 "pwd" "[sh@xbot]$ pwd\nx\n[sh@xbot]$ pwd" = (some 3, none) ∧
    (some 3 : Option Nat) ≠ some (0 + 1) := ⟨rfl, rfl, by decide⟩

/-- C4 counterexample: raw text with no end boundary located and non-empty
purified text — Python slices lines[start:None] to the end of the list, so
the purified text is all lines after the start, not the empty string. -/
theorem C4_counterexample :
    (initState.appendrs ⟨PS1, "pwd", ""⟩ "hello").end_ = none ∧
    (initState.appendrs ⟨PS1, "pwd", ""⟩ "hello").purers = "hello" ∧
    "hello" ≠ "" := ⟨rfl, rfl, by decide⟩

/-- C5 counterexample: a command whose trimmed text contains whitespace (a
tab) but no space character is not protected by the multi-word skip rule:
the prompt line is treated as the end boundary although no start has been
located. -/
theorem C5_counterexample :
    ((pystrip "a\tb").data.any isPySpace) = true ∧
    spaceInCmd "a\tb" = false ∧
    locate_purers PS1 "a\tb" "[sh@xbot]$ x" = (none, some (-1)) := ⟨rfl, rfl, rfl⟩

/-- C10 counterexample: for expect "" and the single-word command pwd, a
prompt line preceded by two junk lines sets the end boundary to 1 and
finished() becomes true, but the purified text is the junk text a\nb, not
the empty string. -/
theorem C10_counterexample :
    ((initState.appendrs ⟨PS1, "pwd", ""⟩ "a\nb\n[sh@xbot]$ x").end_ = some 1) ∧
    ((initState.appendrs ⟨PS1, "pwd", ""⟩ "a\nb\n[sh@xbot]$ x").finished ⟨PS1, "pwd", ""⟩ = true) ∧
    ((initState.appendrs ⟨PS1, "pwd", ""⟩ "a\nb\n[sh@xbot]$ x").purers = "a\nb") ∧
    "a\nb" ≠ "" := ⟨rfl, rfl, rfl, by decide⟩

/-! ## C6: return-code extraction -/

/-- C6: for expect "0", once an end boundary exists the extracted return
code is the second-to-last of the lines strictly after the end boundary
exactly when at least 3 such trailing lines exist, the last of them
matches the prompt marker pattern, and that candidate line starts with a
digit; in every other case, including an absent end boundary, the
extracted return code is the empty string. -/
theorem C6_getrc_characterization (ps1 rs : String) (e : Option Int) :
    getrc ps1 rs e =
      match e with
      | none => ""
      | some v =>
        let trailing := (splitlines rs).drop (v + 1).toNat
        if 3 ≤ trailing.length
            ∧ ps1lineMatch ps1 (trailing.getD (trailing.length - 1) "") = true
            ∧ digitStart (trailing.getD (trailing.length - 2) "") = true
        then trailing.getD (trailing.length - 2) ""
        else "" := by
  cases e with
  | none => rfl
  | some v =>
    show getrc ps1 rs (some v) = _
    unfold getrc
    simp only []
    set L := (splitlines rs).drop (v + 1).toNat with hL
    by_cases h1 : L.length < 3
    · rw [if_pos h1, if_neg]
      intro hc
      omega
    · rw [if_neg h1]
      cases h2 : ps1lineMatch ps1 (L.getD (L.length - 1) "") with
      | false =>
        rw [if_pos (by decide), if_neg]
        rintro ⟨-, hx, -⟩
        exact Bool.noConfusion hx
      | true =>
        rw [if_neg (by decide)]
        cases h3 : digitStart (L.getD (L.length - 2) "") with
        | false =>
          rw [if_pos (by decide), if_neg]
          rintro ⟨-, -, hx⟩
          exact Bool.noConfusion hx
        | true =>
          rw [if_neg (by decide), if_pos ⟨by omega, rfl, rfl⟩]

/-! ## Lemmas about the boundary-location scan -/

theorem locateGo_start_isSome (ps1 cmd : String) :
    ∀ (lines : List String) (i s : Nat),
      ((locateGo ps1 cmd lines i (some s)).1).isSome = true := by
  intro lines
  induction lines with
  | nil => intro i s; rfl
  | cons l ls ih =>
    intro i s
    rw [locateGo]
    split
    · exact ih _ _
    · split
      · exact ih _ _
      · split
        · split
          · exact ih _ _
          · rfl
        · exact ih _ _

theorem locateGo_skip (ps1 cmd : String) (hsp : spaceInCmd cmd = true) :
    ∀ (lines : List String) (i : Nat),
      (locateGo ps1 cmd lines i none).1 = none →
      (locateGo ps1 cmd lines i none).2 = none := by
  intro lines
  induction lines with
  | nil => intro i _; rfl
  | cons l ls ih =>
    intro i h1
    by_cases hc1 : ((none : Option Nat).isNone && l == cmd) = true
    · rw [locateGo, if_pos hc1] at h1
      have hs := locateGo_start_isSome ps1 cmd ls (i + 1) (i + 1)
      rw [h1] at hs
      exact absurd hs (by decide)
    · by_cases hc2 : bcond ps1 cmd l = true
      · rw [locateGo, if_neg hc1, if_pos hc2] at h1
        have hs := locateGo_start_isSome ps1 cmd ls (i + 1) (i + 1)
        rw [h1] at hs
        exact absurd hs (by decide)
      · by_cases hc3 : ps1lineMatch ps1 l = true
        · have hc4 : (spaceInCmd cmd && (none : Option Nat).isNone) = true := by
            rw [hsp]; rfl
          rw [locateGo, if_neg hc1, if_neg hc2, if_pos hc3, if_pos hc4] at h1 ⊢
          exact ih _ h1
        · rw [locateGo, if_neg hc1, if_neg hc2, if_neg hc3] at h1 ⊢
          exact ih _ h1

theorem locateGo_end_sound (ps1 cmd : String) :
    ∀ (lines : List String) (i : Nat) (st : Option Nat) (e : Int),
      (locateGo ps1 cmd lines i st).2 = some e →
      ∃ (j : Nat) (l : String), lines.get? j = some l ∧ e = (i : Int) + j - 1 ∧
        ps1lineMatch ps1 l = true ∧ bcond ps1 cmd l = false := by
  intro lines
  induction lines with
  | nil =>
    intro i st e h
    exact absurd h (by simp [locateGo])
  | cons l ls ih =>
    intro i st e h
    rw [locateGo] at h
    by_cases hc1 : (st.isNone && l == cmd) = true
    · rw [if_pos hc1] at h
      obtain ⟨j, l', hg, he, hm, hb⟩ := ih _ _ _ h
      refine ⟨j + 1, l', hg, ?_, hm, hb⟩
      push_cast at he ⊢
      omega
    · rw [if_neg hc1] at h
      by_cases hc2 : bcond ps1 cmd l = true
      · rw [if_pos hc2] at h
        obtain ⟨j, l', hg, he, hm, hb⟩ := ih _ _ _ h
        refine ⟨j + 1, l', hg, ?_, hm, hb⟩
        push_cast at he ⊢
        omega
      · rw [if_neg hc2] at h
        by_cases hc3 : ps1lineMatch ps1 l = true
        · rw [if_pos hc3] at h
          by_cases hc4 : (spaceInCmd cmd && st.isNone) = true
          · rw [if_pos hc4] at h
            obtain ⟨j, l', hg, he, hm, hb⟩ := ih _ _ _ h
            refine ⟨j + 1, l', hg, ?_, hm, hb⟩
            push_cast at he ⊢
            omega
          · rw [if_neg hc4] at h
            have he : e = (i : Int) - 1 := by
              have := Option.some.inj h
              omega
            have hb : bcond ps1 cmd l = false := by
              revert hc2
              cases bcond ps1 cmd l <;> simp
            refine ⟨0, l, rfl, ?_, hc3, hb⟩
            push_cast
            omega
        · rw [if_neg hc3] at h
          obtain ⟨j, l', hg, he, hm, hb⟩ := ih _ _ _ h
          refine ⟨j + 1, l', hg, ?_, hm, hb⟩
          push_cast at he ⊢
          omega

theorem locateGo_start_sound (ps1 cmd : String) (G : Nat → Prop) :
    ∀ (lines : List String) (i : Nat) (st : Option Nat),
      (∀ s, st = some s → G s) →
      (∀ (j : Nat) (l : String), lines.get? j = some l →
        (l = cmd ∨ bcond ps1 cmd l = true) → G (i + j + 1)) →
      ∀ s, (locateGo ps1 cmd lines i st).1 = some s → G s := by
  intro lines
  induction lines with
  | nil =>
    intro i st hst _ s h
    exact hst s h
  | cons l ls ih =>
    intro i st hst hq s h
    rw [locateGo] at h
    have hqtail : ∀ (j : Nat) (l' : String), ls.get? j = some l' →
        (l' = cmd ∨ bcond ps1 cmd l' = true) → G (i + 1 + j + 1) := by
      intro j l' hg hql
      have := hq (j + 1) l' hg hql
      have harith : i + (j + 1) + 1 = i + 1 + j + 1 := by omega
      rwa [harith] at this
    by_cases hc1 : (st.isNone && l == cmd) = true
    · rw [if_pos hc1] at h
      have hlcmd : l = cmd := by
        have := (Bool.and_eq_true _ _).mp hc1
        exact beq_iff_eq.mp this.2
      refine ih (i + 1) (some (i + 1)) ?_ hqtail s h
      intro s' hs'
      have : s' = i + 1 := by
        have := Option.some.inj hs'
        omega
      subst this
      have := hq 0 l rfl (Or.inl hlcmd)
      have harith : i + 0 + 1 = i + 1 := by omega
      rwa [harith] at this
    · rw [if_neg hc1] at h
      by_cases hc2 : bcond ps1 cmd l = true
      · rw [if_pos hc2] at h
        refine ih (i + 1) (some (i + 1)) ?_ hqtail s h
        intro s' hs'
        have : s' = i + 1 := by
          have := Option.some.inj hs'
          omega
        subst this
        have := hq 0 l rfl (Or.inr hc2)
        have harith : i + 0 + 1 = i + 1 := by omega
        rwa [harith] at this
      · rw [if_neg hc2] at h
        by_cases hc3 : ps1lineMatch ps1 l = true
        · rw [if_pos hc3] at h
          by_cases hc4 : (spaceInCmd cmd && st.isNone) = true
          · rw [if_pos hc4] at h
            exact ih (i + 1) st hst hqtail s h
          · rw [if_neg hc4] at h
            exact hst s h
        · rw [if_neg hc3] at h
          exact ih (i + 1) st hst hqtail s h

theorem locateGo_start_char_some (ps1 cmd : String) :
    ∀ (lines : List String) (i s : Nat),
      (locateGo ps1 cmd lines i (some s)).2 = none →
      (locateGo ps1 cmd lines i (some s)).1 =
        match lastBIdx ps1 cmd lines with
        | some j => some (i + j + 1)
        | none => some s := by
  intro lines
  induction lines with
  | nil => intro i s _; rfl
  | cons l ls ih =>
    intro i s h
    rw [locateGo] at h ⊢
    have hc1 : (((some s : Option Nat)).isNone && l == cmd) = false := by
      simp
    rw [hc1] at h ⊢
    rw [if_neg (by decide)] at h ⊢
    by_cases hc2 : bcond ps1 cmd l = true
    · rw [if_pos hc2] at h ⊢
      rw [ih _ _ h]
      cases hlb : lastBIdx ps1 cmd ls with
      | some j =>
        simp only [lastBIdx, hlb]
        have harith : i + 1 + j + 1 = i + (j + 1) + 1 := by omega
        rw [harith]
      | none =>
        simp only [lastBIdx, hlb, if_pos hc2]
    · rw [if_neg hc2] at h ⊢
      by_cases hc3 : ps1lineMatch ps1 l = true
      · rw [if_pos hc3] at h
        have hc4 : (spaceInCmd cmd && ((some s : Option Nat)).isNone) = false := by
          simp
        rw [hc4, if_neg (by decide)] at h
        exact absurd h (by simp)
      · rw [if_neg hc3] at h ⊢
        rw [ih _ _ h]
        have hnb : bcond ps1 cmd l = false := by
          revert hc2
          cases bcond ps1 cmd l <;> simp
        cases hlb : lastBIdx ps1 cmd ls with
        | some j =>
          simp only [lastBIdx, hlb]
          have harith : i + 1 + j + 1 = i + (j + 1) + 1 := by omega
          rw [harith]
        | none =>
          simp only [lastBIdx, hlb, hnb]
          rw [if_neg (by decide)]

theorem locateGo_start_char_none (ps1 cmd : String) :
    ∀ (lines : List String) (i : Nat),
      (locateGo ps1 cmd lines i none).2 = none →
      (locateGo ps1 cmd lines i none).1 =
        match lastBIdx ps1 cmd lines with
        | some j => some (i + j + 1)
        | none => (firstAIdx cmd lines).map (fun j => i + j + 1) := by
  intro lines
  induction lines with
  | nil => intro i _; rfl
  | cons l ls ih =>
    intro i h
    rw [locateGo] at h ⊢
    by_cases hc1 : (((none : Option Nat)).isNone && l == cmd) = true
    · rw [if_pos hc1] at h ⊢
      have hlcmd : (l == cmd) = true := by
        simpa using hc1
      rw [locateGo_start_char_some ps1 cmd ls (i + 1) (i + 1) h]
      cases hlb : lastBIdx ps1 cmd ls with
      | some j =>
        simp only [lastBIdx, hlb]
        have harith : i + 1 + j + 1 = i + (j + 1) + 1 := by omega
        rw [harith]
      | none =>
        simp only [lastBIdx, hlb]
        by_cases hbl : bcond ps1 cmd l = true
        · rw [if_pos hbl]
        · rw [if_neg hbl]
          simp [firstAIdx, hlcmd]
    · rw [if_neg hc1] at h ⊢
      have hlcmd : (l == cmd) = false := by
        revert hc1
        cases l == cmd <;> simp
      by_cases hc2 : bcond ps1 cmd l = true
      · rw [if_pos hc2] at h ⊢
        rw [locateGo_start_char_some ps1 cmd ls (i + 1) (i + 1) h]
        cases hlb : lastBIdx ps1 cmd ls with
        | some j =>
          simp only [lastBIdx, hlb]
          have harith : i + 1 + j + 1 = i + (j + 1) + 1 := by omega
          rw [harith]
        | none =>
          simp only [lastBIdx, hlb, if_pos hc2]
      · rw [if_neg hc2] at h ⊢
        have hnb : bcond ps1 cmd l = false := by
          revert hc2
          cases bcond ps1 cmd l <;> simp
        by_cases hc3 : ps1lineMatch ps1 l = true
        · rw [if_pos hc3] at h ⊢
          by_cases hc4 : (spaceInCmd cmd && ((none : Option Nat)).isNone) = true
          · rw [if_pos hc4] at h ⊢
            rw [ih _ h]
            cases hlb : lastBIdx ps1 cmd ls with
            | some j =>
              simp only [lastBIdx, hlb]
              have harith : i + 1 + j + 1 = i + (j + 1) + 1 := by omega
              rw [harith]
            | none =>
              simp only [lastBIdx, hlb, hnb]
              rw [if_neg (by decide)]
              simp only [firstAIdx, hlcmd]
              rw [if_neg (by decide)]
              cases hfa : firstAIdx cmd ls with
              | some j =>
                show some (i + 1 + j + 1) = some (i + (j + 1) + 1)
                congr 1
                omega
              | none => rfl
          · rw [if_neg hc4] at h
            exact absurd h (by simp)
        · rw [if_neg hc3] at h ⊢
          rw [ih _ h]
          cases hlb : lastBIdx ps1 cmd ls with
          | some j =>
            simp only [lastBIdx, hlb]
            have harith : i + 1 + j + 1 = i + (j + 1) + 1 := by omega
            rw [harith]
          | none =>
            simp only [lastBIdx, hlb, hnb]
            rw [if_neg (by decide)]
            simp only [firstAIdx, hlcmd]
            rw [if_neg (by decide)]
            cases hfa : firstAIdx cmd ls with
            | some j =>
              show some (i + 1 + j + 1) = some (i + (j + 1) + 1)
              congr 1
              omega
            | none => rfl

theorem appendrs_end (p : RParams) (st : RState) (s : String) :
    (st.appendrs p s).end_ = (locate_purers p.ps1 p.cmd (st.rs ++ s)).2 := rfl

theorem appendrs_start (p : RParams) (st : RState) (s : String) :
    (st.appendrs p s).start = (locate_purers p.ps1 p.cmd (st.rs ++ s)).1 := rfl

theorem appendrs_purers (p : RParams) (st : RState) (s : String) :
    (st.appendrs p s).purers =
      pystrip (String.intercalate "\n"
        (sliceLines (splitlines (st.rs ++ s))
          (locate_purers p.ps1 p.cmd (st.rs ++ s)).1
          (sliceStop (locate_purers p.ps1 p.cmd (st.rs ++ s)).2))) := rfl

/-! ## C3 amended: where the start boundary really lands -/

/-- C3 amended: the start index, when located, always lies immediately
after a line that equals the command or satisfies the prompt-echo
condition; but it is not pinned to the first such line: when the scan
finds no end boundary, the final start is the index immediately after the
last line satisfying the prompt-echo condition, and only if no such line
exists is it the index after the first line equal to the command. -/
theorem C3_amended (ps1 cmd rs : String) :
    (∀ s : Nat, (locate_purers ps1 cmd rs).1 = some s →
      1 ≤ s ∧ ∃ l, (splitlines rs).get? (s - 1) = some l ∧
        (l = cmd ∨ bcond ps1 cmd l = true)) ∧
    ((locate_purers ps1 cmd rs).2 = none →
      (locate_purers ps1 cmd rs).1 =
        match lastBIdx ps1 cmd (splitlines rs) with
        | some j => some (j + 1)
        | none => (firstAIdx cmd (splitlines rs)).map (fun j => j + 1)) := by
  constructor
  · intro s hs
    refine locateGo_start_sound ps1 cmd
      (fun s => 1 ≤ s ∧ ∃ l, (splitlines rs).get? (s - 1) = some l ∧
        (l = cmd ∨ bcond ps1 cmd l = true))
      (splitlines rs) 0 none (fun s' h => absurd h (by simp)) ?_ s hs
    intro j l hg hql
    refine ⟨by omega, l, ?_, hql⟩
    have harith : 0 + j + 1 - 1 = j := by omega
    rw [harith]
    exact hg
  · intro h2
    have h3 := locateGo_start_char_none ps1 cmd (splitlines rs) 0 h2
    have hz : (fun j => 0 + j + 1) = (fun j : Nat => j + 1) := by
      funext j
      omega
    rw [locate_purers, h3, hz]
    cases lastBIdx ps1 cmd (splitlines rs) with
    | some j =>
      simp only []
      congr 1
      omega
    | none => rfl

theorem C3_amended_witness :
    (1 ≤ 1 ∧ ∃ l, (splitlines "[sh@xbot]$ pwd\nx").get? (1 - 1) = some l ∧
      (l = "pwd" ∨ bcond PS1 "pwd" l = true)) ∧
    (locate_purers PS1 "pwd" "[sh@xbot]$ pwd\nx").1 =
      match lastBIdx PS1 "pwd" (splitlines "[sh@xbot]$ pwd\nx") with
      | some j => some (j + 1)
      | none => (firstAIdx "pwd" (splitlines "[sh@xbot]$ pwd\nx")).map (fun j => j + 1) :=
  ⟨(C3_amended PS1 "pwd" "[sh@xbot]$ pwd\nx").1 1 rfl,
   (C3_amended PS1 "pwd" "[sh@xbot]$ pwd\nx").2 rfl⟩

/-! ## C4 amended: purified text when no end boundary exists -/

/-- C4 amended: when no end boundary has been located, the purified text
is not in general empty: it consists of all lines from the start index
(from the beginning when no start is located) to the end of the raw text,
joined with newlines and stripped. -/
theorem C4_amended (p : RParams) (st : RState) (s : String) :
    (st.appendrs p s).end_ = none →
    (st.appendrs p s).purers =
      pystrip (String.intercalate "\n"
        ((splitlines (st.rs ++ s)).drop (((st.appendrs p s).start).getD 0))) := by
  intro h
  rw [appendrs_end] at h
  rw [appendrs_purers, appendrs_start, h]
  rfl

theorem C4_amended_witness :
    (initState.appendrs ⟨PS1, "pwd", ""⟩ "hello").purers =
      pystrip (String.intercalate "\n"
        ((splitlines (initState.rs ++ "hello")).drop
          (((initState.appendrs ⟨PS1, "pwd", ""⟩ "hello").start).getD 0))) :=
  C4_amended ⟨PS1, "pwd", ""⟩ initState "hello" rfl

/-! ## C5 amended: the multi-word skip rule and the first end trigger -/

theorem firstFrom_shift (T : Nat → Bool) (P : Nat → Prop) (i : Nat) (hTi : T i = false) :
    (∃ k, i ≤ k ∧ T k = true ∧ (∀ j, i ≤ j → j < k → T j = false) ∧ P k) ↔
    (∃ k, i + 1 ≤ k ∧ T k = true ∧ (∀ j, i + 1 ≤ j → j < k → T j = false) ∧ P k) := by
  constructor
  · rintro ⟨k, hik, hTk, hmin, hP⟩
    have hki : k ≠ i := by
      intro h
      rw [h, hTi] at hTk
      exact Bool.noConfusion hTk
    exact ⟨k, by omega, hTk, fun j hj1 hj2 => hmin j (by omega) hj2, hP⟩
  · rintro ⟨k, hik, hTk, hmin, hP⟩
    refine ⟨k, by omega, hTk, fun j hj1 hj2 => ?_, hP⟩
    by_cases hji : j = i
    · rw [hji]
      exact hTi
    · exact hmin j (by omega) hj2

theorem startSetterBefore_succ (ps1 cmd : String) (full : List String) (i : Nat) (l : String)
    (hg : full.get? i = some l) :
    startSetterBefore ps1 cmd full (i + 1) =
      (startSetterBefore ps1 cmd full i || (l == cmd || bcond ps1 cmd l)) := by
  unfold startSetterBefore
  have hg' : full[i]? = some l := by
    rw [← List.get?_eq_getElem?]
    exact hg
  rw [List.take_succ, hg']
  simp [List.any_append]

theorem endTriggerAt_of_get (ps1 cmd : String) (full : List String) (i : Nat) (l : String)
    (hg : full.get? i = some l) :
    endTriggerAt ps1 cmd full i =
      (ps1lineMatch ps1 l && !(bcond ps1 cmd l) &&
        !(l == cmd && !(startSetterBefore ps1 cmd full i)) &&
        (!(spaceInCmd cmd) || startSetterBefore ps1 cmd full i)) := by
  unfold endTriggerAt
  rw [hg]

theorem locateGo_end_iff (ps1 cmd : String) :
    ∀ (lines : List String) (i : Nat) (st : Option Nat) (full : List String),
      full.drop i = lines →
      st.isSome = startSetterBefore ps1 cmd full i →
      ∀ e : Int,
        ((locateGo ps1 cmd lines i st).2 = some e ↔
          ∃ k : Nat, i ≤ k ∧ endTriggerAt ps1 cmd full k = true ∧
            (∀ j, i ≤ j → j < k → endTriggerAt ps1 cmd full j = false) ∧
            e = (k : Int) - 1) := by
  intro lines
  induction lines with
  | nil =>
    intro i st full hdrop _ e
    constructor
    · intro h
      exact absurd h (by simp [locateGo])
    · rintro ⟨k, hik, hTk, -, -⟩
      exfalso
      have hlen : full.length ≤ i := List.drop_eq_nil_iff.mp hdrop
      have hg : full.get? k = none := List.get?_eq_none.mpr (by omega)
      unfold endTriggerAt at hTk
      rw [hg] at hTk
      exact Bool.noConfusion hTk
  | cons l ls ih =>
    intro i st full hdrop hst e
    have hg : full.get? i = some l := by
      have h0 : (full.drop i)[0]? = some l := by
        rw [hdrop]
        simp
      rw [List.getElem?_drop] at h0
      rw [List.get?_eq_getElem?]
      simpa using h0
    have hdrop' : full.drop (i + 1) = ls := by
      have hd : full.drop (i + 1) = (full.drop i).drop 1 := by
        rw [List.drop_drop]
      rw [hd, hdrop]
      rfl
    have hsucc := startSetterBefore_succ ps1 cmd full i l hg
    have hTi := endTriggerAt_of_get ps1 cmd full i l hg
    rw [locateGo]
    by_cases hc1 : (st.isNone && l == cmd) = true
    · rw [if_pos hc1]
      have hstn : st.isNone = true := ((Bool.and_eq_true _ _).mp hc1).1
      have hlcmd : (l == cmd) = true := ((Bool.and_eq_true _ _).mp hc1).2
      have hset : startSetterBefore ps1 cmd full i = false := by
        rw [← hst]
        cases st with
        | none => rfl
        | some s => exact absurd hstn (by simp)
      have hTif : endTriggerAt ps1 cmd full i = false := by
        rw [hTi, hlcmd, hset]
        simp
      have hst' : (some (i + 1) : Option Nat).isSome =
          startSetterBefore ps1 cmd full (i + 1) := by
        rw [hsucc, hset, hlcmd]
        rfl
      exact (ih (i + 1) (some (i + 1)) full hdrop' hst' e).trans
        (firstFrom_shift _ _ i hTif).symm
    · rw [if_neg hc1]
      by_cases hc2 : bcond ps1 cmd l = true
      · rw [if_pos hc2]
        have hTif : endTriggerAt ps1 cmd full i = false := by
          rw [hTi, hc2]
          simp
        have hst' : (some (i + 1) : Option Nat).isSome =
            startSetterBefore ps1 cmd full (i + 1) := by
          rw [hsucc, hc2]
          simp
        exact (ih (i + 1) (some (i + 1)) full hdrop' hst' e).trans
          (firstFrom_shift _ _ i hTif).symm
      · rw [if_neg hc2]
        have hnb : bcond ps1 cmd l = false := by
          revert hc2
          cases bcond ps1 cmd l <;> simp
        by_cases hc3 : ps1lineMatch ps1 l = true
        · rw [if_pos hc3]
          by_cases hc4 : (spaceInCmd cmd && st.isNone) = true
          · rw [if_pos hc4]
            have hsp : spaceInCmd cmd = true := ((Bool.and_eq_true _ _).mp hc4).1
            have hstn : st.isNone = true := ((Bool.and_eq_true _ _).mp hc4).2
            have hset : startSetterBefore ps1 cmd full i = false := by
              rw [← hst]
              cases st with
              | none => rfl
              | some s => exact absurd hstn (by simp)
            have hlcmd : (l == cmd) = false := by
              revert hc1
              rw [hstn]
              cases l == cmd <;> simp
            have hTif : endTriggerAt ps1 cmd full i = false := by
              rw [hTi, hsp, hset]
              simp
            have hst' : st.isSome = startSetterBefore ps1 cmd full (i + 1) := by
              rw [hsucc, hset, hlcmd, hnb]
              cases st with
              | none => rfl
              | some s => exact absurd hstn (by simp)
            exact (ih (i + 1) st full hdrop' hst' e).trans
              (firstFrom_shift _ _ i hTif).symm
          · rw [if_neg hc4]
            have hTit : endTriggerAt ps1 cmd full i = true := by
              cases hni : st.isNone with
              | true =>
                have hlcmd : (l == cmd) = false := by
                  revert hc1
                  rw [hni]
                  cases l == cmd <;> simp
                have hspf : spaceInCmd cmd = false := by
                  revert hc4
                  rw [hni]
                  cases spaceInCmd cmd <;> simp
                rw [hTi, hc3, hnb, hlcmd, hspf]
                simp
              | false =>
                have hset : startSetterBefore ps1 cmd full i = true := by
                  rw [← hst]
                  cases st with
                  | none => exact absurd hni (by simp)
                  | some s => rfl
                rw [hTi, hc3, hnb, hset]
                simp
            constructor
            · intro h
              have he : e = (i : Int) - 1 := by
                have hinj := Option.some.inj h
                omega
              exact ⟨i, le_refl i, hTit,
                fun j hj1 hj2 => absurd hj2 (by omega), he⟩
            · rintro ⟨k, hik, hTk, hmin, hP⟩
              have hki : k = i := by
                by_contra hne
                have hfalse : endTriggerAt ps1 cmd full i = false :=
                  hmin i (le_refl i) (by omega)
                rw [hTit] at hfalse
                exact Bool.noConfusion hfalse
              subst hki
              show some ((k : Int) - 1) = some e
              rw [hP]
        · rw [if_neg hc3]
          have hps1f : ps1lineMatch ps1 l = false := by
            revert hc3
            cases ps1lineMatch ps1 l <;> simp
          have hTif : endTriggerAt ps1 cmd full i = false := by
            rw [hTi, hps1f]
            simp
          have hst' : st.isSome = startSetterBefore ps1 cmd full (i + 1) := by
            rw [hsucc, hnb, ← hst]
            cases st with
            | some s => simp
            | none =>
              have hlcmd : (l == cmd) = false := by
                revert hc1
                cases l == cmd <;> simp
              rw [hlcmd]
              rfl
          exact (ih (i + 1) st full hdrop' hst' e).trans
            (firstFrom_shift _ _ i hTif).symm

/-- C5 amended: the multi-word guard tests for a literal space character
in the stripped command, not for arbitrary whitespace.  For every command
whose stripped text contains a space, while no start line has been
located the pass never treats a prompt-matching line as the end boundary
(it skips it and continues, so a scan that locates no start locates no
end); whereas once a start has been located (or for commands without a
space), the end line is the line immediately before the FIRST subsequent
line that matches the prompt marker pattern and is not itself a command
echo — stated exactly by the endTriggerAt first-trigger
characterization. -/
theorem C5_amended (ps1 cmd rs : String) :
    (spaceInCmd cmd = true →
      (locate_purers ps1 cmd rs).1 = none →
      (locate_purers ps1 cmd rs).2 = none) ∧
    (∀ e : Int,
      (locate_purers ps1 cmd rs).2 = some e ↔
        ∃ k : Nat, endTriggerAt ps1 cmd (splitlines rs) k = true ∧
          (∀ j, j < k → endTriggerAt ps1 cmd (splitlines rs) j = false) ∧
          e = (k : Int) - 1) := by
  constructor
  · intro hsp h1
    exact locateGo_skip ps1 cmd hsp (splitlines rs) 0 h1
  · intro e
    have h := locateGo_end_iff ps1 cmd (splitlines rs) 0 none (splitlines rs) rfl rfl e
    rw [locate_purers, h]
    constructor
    · rintro ⟨k, -, hTk, hmin, hP⟩
      exact ⟨k, hTk, fun j hj => hmin j (by omega) hj, hP⟩
    · rintro ⟨k, hTk, hmin, hP⟩
      exact ⟨k, by omega, hTk, fun j _ hj => hmin j hj, hP⟩

theorem C5_amended_witness :
    ((locate_purers PS1 "a b" "x").2 = none) ∧
    (∃ k : Nat, endTriggerAt PS1 "pwd" (splitlines "[sh@xbot]$ x") k = true ∧
      (∀ j, j < k → endTriggerAt PS1 "pwd" (splitlines "[sh@xbot]$ x") j = false) ∧
      (-1 : Int) = (k : Int) - 1) :=
  ⟨(C5_amended PS1 "a b" "x").1 rfl rfl,
   ((C5_amended PS1 "pwd" "[sh@xbot]$ x").2 (-1)).mp rfl⟩

/-! ## C10 amended: prompt line before any start -/

theorem listIsPrefix_refl (xs : List Char) : listIsPrefix xs xs = true := by
  induction xs with
  | nil => rfl
  | cons c cs ih => simp [listIsPrefix, ih]

theorem strEndsWith_self (s : String) : strEndsWith s s = true :=
  listIsPrefix_refl s.data.reverse

theorem noWhitespace_spaceInCmd (cmd : String)
    (h : (pystrip cmd).data.all (fun c => !(isPySpace c)) = true) :
    spaceInCmd cmd = false := by
  cases hc : spaceInCmd cmd with
  | false => rfl
  | true =>
    exfalso
    have hinf : (" " : String).data <:+: (pystrip cmd).data :=
      (strContains_iff (pystrip cmd) " ").mp hc
    obtain ⟨pre, suf, heq⟩ := hinf
    have hmem : ' ' ∈ (pystrip cmd).data := by
      rw [← heq]
      simp [String.data]
    have := (List.all_eq_true.mp h) ' ' hmem
    simp [isPySpace] at this

theorem locateGo_inert (ps1 cmd : String) :
    ∀ (pre rest : List String) (i : Nat) (st : Option Nat),
      (∀ l ∈ pre, (l == cmd) = false ∧ ps1lineMatch ps1 l = false) →
      locateGo ps1 cmd (pre ++ rest) i st =
        locateGo ps1 cmd rest (i + pre.length) st := by
  intro pre
  induction pre with
  | nil => intro rest i st _; rfl
  | cons l ls ih =>
    intro rest i st hin
    have hl := hin l (by simp)
    have hls : ∀ l' ∈ ls, (l' == cmd) = false ∧ ps1lineMatch ps1 l' = false :=
      fun l' h' => hin l' (by simp [h'])
    rw [List.cons_append, locateGo]
    have hc1 : (st.isNone && l == cmd) = false := by
      rw [hl.1]
      simp
    have hb : bcond ps1 cmd l = false := by
      rw [bcond, hl.2]
      rfl
    rw [hc1, hb, hl.2]
    rw [if_neg (by decide), if_neg (by decide), if_neg (by decide)]
    rw [ih rest (i + 1) st hls]
    congr 1
    simp
    omega

/-- C10 amended: for expect "" and a command whose trimmed text contains
no whitespace, if the first prompt-matching line of the raw text does not
end with the command and no earlier line equals the command, the end
boundary is set to the index just before that prompt line (-1 when it is
the very first line) and the start stays unlocated, so finished() becomes
true; the purified text, however, is empty only when the prompt line is
among the first two lines — otherwise it consists of the lines preceding
the prompt line, joined and stripped. -/
theorem C10_amended (cmd rs : String) (pre rest : List String) (lk : String)
    (hnw : (pystrip cmd).data.all (fun c => !(isPySpace c)) = true)
    (hsplit : splitlines rs = pre ++ lk :: rest)
    (hpre : ∀ l ∈ pre, (l == cmd) = false ∧ ps1lineMatch PS1 l = false)
    (hm : ps1lineMatch PS1 lk = true)
    (hend : strEndsWith lk cmd = false) :
    locate_purers PS1 cmd rs = (none, some ((pre.length : Int) - 1)) ∧
    (initState.appendrs ⟨PS1, cmd, ""⟩ rs).finished ⟨PS1, cmd, ""⟩ = true ∧
    (initState.appendrs ⟨PS1, cmd, ""⟩ rs).purers =
      (if pre.length ≤ 1 then ""
       else pystrip (String.intercalate "\n" pre)) := by
  have hlkcmd : (lk == cmd) = false := by
    cases hc : lk == cmd with
    | false => rfl
    | true =>
      have : lk = cmd := beq_iff_eq.mp hc
      rw [this] at hend
      rw [strEndsWith_self] at hend
      exact Bool.noConfusion hend
  have hbk : bcond PS1 cmd lk = false := by
    rw [bcond, hend]
    cases ps1lineMatch PS1 lk <;> rfl
  have hsp : spaceInCmd cmd = false := noWhitespace_spaceInCmd cmd hnw
  have hloc : locate_purers PS1 cmd rs = (none, some ((pre.length : Int) - 1)) := by
    rw [locate_purers, hsplit, locateGo_inert PS1 cmd pre (lk :: rest) 0 none hpre]
    rw [locateGo]
    have hc1 : (((none : Option Nat)).isNone && lk == cmd) = false := by
      rw [hlkcmd]
      rfl
    rw [hc1, hbk, hm]
    rw [if_neg (by decide), if_neg (by decide), if_pos rfl]
    have hc4 : (spaceInCmd cmd && ((none : Option Nat)).isNone) = false := by
      rw [hsp]
      rfl
    rw [hc4, if_neg (by decide)]
    have : ((0 + pre.length : Nat) : Int) - 1 = (pre.length : Int) - 1 := by
      push_cast
      omega
    rw [this]
  have he : (initState.appendrs ⟨PS1, cmd, ""⟩ rs).end_ =
      some ((pre.length : Int) - 1) := by
    show (locate_purers PS1 cmd ("" ++ rs)).2 = _
    rw [String.empty_append, hloc]
  have hp : (initState.appendrs ⟨PS1, cmd, ""⟩ rs).purers =
      pystrip (String.intercalate "\n"
        (sliceLines (splitlines rs) none
          (sliceStop (some ((pre.length : Int) - 1))))) := by
    show pystrip (String.intercalate "\n"
      (sliceLines (splitlines ("" ++ rs))
        (locate_purers PS1 cmd ("" ++ rs)).1
        (sliceStop (locate_purers PS1 cmd ("" ++ rs)).2))) = _
    rw [String.empty_append, hloc]
  refine ⟨hloc, ?_, ?_⟩
  · show (!((initState.appendrs ⟨PS1, cmd, ""⟩ rs).end_ == none)) = true
    rw [he]
    rfl
  · rw [hp]
    by_cases h0 : pre.length = 0
    · rw [h0]
      rfl
    · by_cases h1 : pre.length = 1
      · rw [h1]
        rfl
      · have hgt : ¬pre.length ≤ 1 := by omega
        rw [if_neg hgt]
        have hne : (((pre.length : Int) - 1) == 0) = false := by
          have hne' : (pre.length : Int) - 1 ≠ 0 := by omega
          simpa using hne'
        simp only [sliceStop, hne]
        rw [if_neg (by decide)]
        have htn : ((pre.length : Int) - 1 + 1).toNat = pre.length := by omega
        rw [hsplit]
        simp only [sliceLines]
        rw [htn]
        have htl : (pre ++ lk :: rest).take pre.length = pre :=
          List.take_left pre (lk :: rest)
        rw [htl]
        rfl

theorem C10_amended_witness :
    locate_purers PS1 "pwd" "a\nb\n[sh@xbot]$ x" = (none, some ((([("a" : String), "b"]).length : Int) - 1)) ∧
    (initState.appendrs ⟨PS1, "pwd", ""⟩ "a\nb\n[sh@xbot]$ x").finished ⟨PS1, "pwd", ""⟩ = true ∧
    (initState.appendrs ⟨PS1, "pwd", ""⟩ "a\nb\n[sh@xbot]$ x").purers =
      (if ([("a" : String), "b"]).length ≤ 1 then ""
       else pystrip (String.intercalate "\n" [("a" : String), "b"])) :=
  C10_amended "pwd" "a\nb\n[sh@xbot]$ x" ["a", "b"] [] "[sh@xbot]$ x"
    rfl rfl (by decide) rfl rfl

/-! ## C7: the timeout path of SSH.exec -/

theorem execLoop_timeout_aux (p : RParams) :
    ∀ (polls : List (Option String)) (st : RState),
      (∀ pre, pre <+: (polls.filterMap id) →
        ((pre.foldl (RState.appendrs p) st).finished p) = false) →
      execLoop p st polls =
        Except.error ("Timeout: " ++ pyDictRepr p.cmd p.expect ++ "\n" ++
          ((polls.filterMap id).foldl (RState.appendrs p) st).purers) := by
  intro polls
  induction polls with
  | nil => intro st _; rfl
  | cons o rest ih =>
    intro st h
    cases o with
    | none =>
      have hfm : ((none :: rest : List (Option String)).filterMap id) = rest.filterMap id := by
        simp
      rw [hfm] at h
      show execLoop p st rest = _
      rw [hfm]
      exact ih st h
    | some c =>
      have hfm : ((some c :: rest : List (Option String)).filterMap id) =
          c :: rest.filterMap id := by
        simp
      rw [hfm] at h
      have hfin : (st.appendrs p c).finished p = false := by
        have hc := h [c] ⟨rest.filterMap id, rfl⟩
        simpa using hc
      show (if (st.appendrs p c).finished p = true then _ else
        execLoop p (st.appendrs p c) rest) = _
      rw [hfin]
      rw [if_neg (by decide)]
      rw [hfm, List.foldl_cons]
      refine ih (st.appendrs p c) ?_
      intro pre hpre
      have hc := h (c :: pre) (List.cons_prefix_cons.mpr ⟨rfl, hpre⟩)
      simpa using hc

/-- C7: if the polling loop exhausts the timeout without finished() ever
becoming true, exec raises ShellError (modelled as Except.error, so no
value is returned on this path) whose message consists of the Timeout
prefix, the dict repr of the command and the expectation, and the
purified text accumulated at that instant — never the raw unparsed
text. -/
theorem C7_timeout (p : RParams) (polls : List (Option String))
    (h : ∀ pre, pre <+: (polls.filterMap id) →
      ((pre.foldl (RState.appendrs p) initState).finished p) = false) :
    execLoop p initState polls =
      Except.error ("Timeout: " ++ pyDictRepr p.cmd p.expect ++ "\n" ++
        ((polls.filterMap id).foldl (RState.appendrs p) initState).purers) :=
  execLoop_timeout_aux p polls initState h

theorem C7_timeout_witness :
    execLoop ⟨PS1, "pwd", "0"⟩ initState [none] =
      Except.error ("Timeout: " ++ pyDictRepr "pwd" "0" ++ "\n") := by
  have h := C7_timeout ⟨PS1, "pwd", "0"⟩ [none] ?hp
  · exact h
  case hp =>
    intro pre hpre
    have hp0 : pre = [] := by
      have hpre' : pre <+: ([] : List String) := by simpa using hpre
      exact List.prefix_nil.mp hpre'
    rw [hp0]
    rfl

/-! ## C8: the environment profile -/

theorem contains_iff_mem (l : List String) (a : String) :
    l.contains a = true ↔ a ∈ l := by
  show l.elem a = true ↔ a ∈ l
  exact List.elem_iff

theorem dictUpdate_mem_self (d : List (String × String)) (k v : String) :
    (k, v) ∈ dictUpdate d k v := by
  unfold dictUpdate
  by_cases hc : ((d.map Prod.fst).contains k) = true
  · rw [if_pos hc]
    obtain ⟨p, hp, hpk⟩ := List.mem_map.mp ((contains_iff_mem _ _).mp hc)
    refine List.mem_map.mpr ⟨p, hp, ?_⟩
    have hbeq : (p.1 == k) = true := beq_iff_eq.mpr hpk
    simp [hbeq, hpk]
  · rw [if_neg hc]
    exact List.mem_append.mpr (Or.inr (by simp))

theorem dictUpdate_mem_other (d : List (String × String)) (k v k' v' : String)
    (hne : k' ≠ k) : (k', v') ∈ dictUpdate d k v ↔ (k', v') ∈ d := by
  unfold dictUpdate
  by_cases hc : ((d.map Prod.fst).contains k) = true
  · rw [if_pos hc]
    constructor
    · intro h
      obtain ⟨p, hp, he⟩ := List.mem_map.mp h
      by_cases hpk : (p.1 == k) = true
      · rw [if_pos hpk] at he
        have h1 : p.1 = k' := congrArg Prod.fst he
        have h2 : k' = k := h1 ▸ beq_iff_eq.mp hpk
        exact absurd h2 hne
      · rw [if_neg hpk] at he
        exact he ▸ hp
    · intro h
      refine List.mem_map.mpr ⟨(k', v'), h, ?_⟩
      have hb : ((k', v').1 == k) = false := by
        simpa using hne
      rw [hb]
      rw [if_neg (by decide)]
  · rw [if_neg hc]
    constructor
    · intro h
      cases List.mem_append.mp h with
      | inl h' => exact h'
      | inr h' =>
        have he : (k', v') = (k, v) := by simpa using h'
        exact absurd (congrArg Prod.fst he) hne
    · exact fun h => List.mem_append.mpr (Or.inl h)

theorem dictUpdate_mem_key (d : List (String × String)) (k v v' : String) :
    (k, v') ∈ dictUpdate d k v → v' = v := by
  unfold dictUpdate
  by_cases hc : ((d.map Prod.fst).contains k) = true
  · rw [if_pos hc]
    intro h
    obtain ⟨p, hp, he⟩ := List.mem_map.mp h
    by_cases hpk : (p.1 == k) = true
    · rw [if_pos hpk] at he
      exact (congrArg Prod.snd he).symm
    · rw [if_neg hpk] at he
      have h1 : p.1 = k := congrArg Prod.fst he
      exact absurd (beq_iff_eq.mpr h1) hpk
  · rw [if_neg hc]
    intro h
    cases List.mem_append.mp h with
    | inl h' =>
      have hm : k ∈ d.map Prod.fst := List.mem_map.mpr ⟨(k, v'), h', rfl⟩
      exact absurd ((contains_iff_mem _ _).mpr hm) hc
    | inr h' =>
      have he : (k, v') = (k, v) := by simpa using h'
      exact congrArg Prod.snd he

theorem dictUpdate_nodup (d : List (String × String)) (k v : String)
    (h : (d.map Prod.fst).Nodup) : ((dictUpdate d k v).map Prod.fst).Nodup := by
  unfold dictUpdate
  by_cases hc : ((d.map Prod.fst).contains k) = true
  · rw [if_pos hc]
    have hmap : (d.map (fun q => if q.1 == k then (q.1, v) else q)).map Prod.fst =
        d.map Prod.fst := by
      rw [List.map_map]
      apply List.map_congr_left
      intro p _
      by_cases hpk : p.1 = k <;> simp [hpk]
    rw [hmap]
    exact h
  · rw [if_neg hc]
    rw [List.map_append]
    refine List.Nodup.append h (by simp) ?_
    intro a ha hb
    have hak : a = k := by simpa using hb
    subst hak
    exact absurd ((contains_iff_mem _ _).mpr ha) hc

/-- C8: after construction, the environment written by _mkprofile consists
of one export line per variable in the dict, and the dict always binds
PS1, LANG and LANGUAGE to exactly the three forced values, regardless of
what the caller supplied for those keys, while every other caller
variable is preserved unchanged. -/
theorem C8_profile (shenvs : List (String × String))
    (hnd : (shenvs.map Prod.fst).Nodup) :
    ((initShenvs shenvs).map Prod.fst).Nodup ∧
    ("PS1", PS1) ∈ initShenvs shenvs ∧
    ("LANG", "en_US.UTF-8") ∈ initShenvs shenvs ∧
    ("LANGUAGE", "en_US.UTF-8") ∈ initShenvs shenvs ∧
    (∀ v, ("PS1", v) ∈ initShenvs shenvs → v = PS1) ∧
    (∀ v, ("LANG", v) ∈ initShenvs shenvs → v = "en_US.UTF-8") ∧
    (∀ v, ("LANGUAGE", v) ∈ initShenvs shenvs → v = "en_US.UTF-8") ∧
    (∀ k v, k ≠ "PS1" → k ≠ "LANG" → k ≠ "LANGUAGE" →
      ((k, v) ∈ initShenvs shenvs ↔ (k, v) ∈ shenvs)) ∧
    mkprofile (initShenvs shenvs) =
      String.join ((initShenvs shenvs).map exportLine) ∧
    (∀ kv ∈ initShenvs shenvs,
      ("export " ++ kv.1 ++ "=\x22" ++ kv.2 ++ "\x22\n") ∈
        (initShenvs shenvs).map exportLine) := by
  unfold initShenvs
  refine ⟨?_, ?_, ?_, ?_, ?_, ?_, ?_, ?_, rfl, ?_⟩
  · exact dictUpdate_nodup _ _ _ (dictUpdate_nodup _ _ _ (dictUpdate_nodup _ _ _ hnd))
  · exact (dictUpdate_mem_other _ _ _ _ _ (by decide)).mpr
      ((dictUpdate_mem_other _ _ _ _ _ (by decide)).mpr
        (dictUpdate_mem_self _ _ _))
  · exact (dictUpdate_mem_other _ _ _ _ _ (by decide)).mpr
      (dictUpdate_mem_self _ _ _)
  · exact dictUpdate_mem_self _ _ _
  · intro v hv
    exact dictUpdate_mem_key _ _ _ _
      ((dictUpdate_mem_other _ _ _ _ _ (by decide)).mp
        ((dictUpdate_mem_other _ _ _ _ _ (by decide)).mp hv))
  · intro v hv
    exact dictUpdate_mem_key _ _ _ _
      ((dictUpdate_mem_other _ _ _ _ _ (by decide)).mp hv)
  · intro v hv
    exact dictUpdate_mem_key _ _ _ _ hv
  · intro k v h1 h2 h3
    rw [dictUpdate_mem_other _ _ _ _ _ h3, dictUpdate_mem_other _ _ _ _ _ h2,
      dictUpdate_mem_other _ _ _ _ _ h1]
  · intro kv hkv
    exact List.mem_map.mpr ⟨kv, hkv, rfl⟩

theorem C8_profile_witness :
    ("PS1", PS1) ∈ initShenvs [("PS1", "x"), ("FOO", "bar")] :=
  (C8_profile [("PS1", "x"), ("FOO", "bar")] (by decide)).2.1

end Xbot
